import Mathlib

/-!
# Verification of the startup-dashboard normalization and insight pipeline

Shallow embedding of the data-cleaning and insight-generation logic of
`app.py`: `find_column`, `clean_amount_series`, the MeitY flag
normalization, the module-level normalization pass, the investor
multi-value expansion, `generate_insights`, and the `meity_pct` KPI.

Cells of the raw table are modelled as `Option String` (`none` is a
missing value / NaN).  Floating-point amounts are modelled as `ℚ`.
-/

namespace StartupDashboard

/-! ## String helpers modelling the pandas `.str` methods used by app.py -/

/-- Whitespace recognised by `str.strip`. -/
def isSpaceChar (c : Char) : Bool := c = ' ' || c = '\t' || c = '\n' || c = '\r'

/-- `str.strip` on a character list: drop leading and trailing whitespace. -/
def trimChars (cs : List Char) : List Char :=
  ((cs.dropWhile isSpaceChar).reverse.dropWhile isSpaceChar).reverse

/-- `str.strip`. -/
def trimStr (s : String) : String := String.mk (trimChars s.data)

/-- `str.lower` on a single (ASCII) character. -/
def lowerChar (c : Char) : Char :=
  if 'A' ≤ c ∧ c ≤ 'Z' then Char.ofNat (c.toNat + 32) else c

/-- `str.lower`. -/
def lowerStr (s : String) : String := String.mk (s.data.map lowerChar)

/-- `str.replace(r'[\$,₹]', '', regex=True)`: delete every dollar sign,
comma and rupee sign from the string. -/
def stripCurrency (s : String) : String :=
  String.mk (s.data.filter (fun c => !(c = '$' || c = ',' || c = '₹')))

/-- `str.split(sep)` on a character list (pandas/Python semantics:
splitting the empty string yields one empty token). -/
def splitOnChar (sep : Char) : List Char → List (List Char)
  | [] => [[]]
  | c :: rest =>
    let r := splitOnChar sep rest
    if c = sep then [] :: r
    else
      match r with
      | [] => [[c]]
      | g :: gs => (c :: g) :: gs

/-- `str.split(',')`. -/
def splitCommaStr (s : String) : List String :=
  (splitOnChar ',' s.data).map String.mk

/-! ## Raw cells -/

/-- A raw cell: `none` models a missing value (NaN). -/
abbrev RawCell := Option String

/-- `astype(str)`: a missing value renders as the string `"nan"`. -/
def cellToStr : RawCell → String
  | none => "nan"
  | some s => s

/-! ## Numeric parsing, modelling `pd.to_numeric(errors='coerce')` -/

/-- Value of a digit string (most significant first). -/
def digitsVal (cs : List Char) : Nat :=
  cs.foldl (fun a c => a * 10 + (c.toNat - 48)) 0

/-- A non-empty all-digit character list, as a `Nat`. -/
def natOfDigits? (cs : List Char) : Option Nat :=
  if !cs.isEmpty && cs.all Char.isDigit then some (digitsVal cs) else none

/-- Parse an unsigned decimal literal (`"12"`, `"12.5"`, `".5"`, `"12."`). -/
def parseUnsigned (cs : List Char) : Option ℚ :=
  let p := cs.span Char.isDigit
  match p.2 with
  | [] => if p.1.isEmpty then none else some (digitsVal p.1 : ℚ)
  | '.' :: fracPart =>
    if fracPart.all Char.isDigit && !(p.1.isEmpty && fracPart.isEmpty) then
      some ((digitsVal p.1 : ℚ) + (digitsVal fracPart : ℚ) / ((10 : ℚ) ^ fracPart.length))
    else none
  | _ => none

/-- Numeric coercion of a string: leading/trailing whitespace is ignored,
an optional sign is honoured, anything unparseable yields `none`
(pandas `errors='coerce'`). -/
def parseNum (s : String) : Option ℚ :=
  match trimChars s.data with
  | '-' :: rest => (parseUnsigned rest).map (fun q => -q)
  | '+' :: rest => parseUnsigned rest
  | cs => parseUnsigned cs

/-! ## `clean_amount_series` (app.py lines 37–40), per cell -/

/-- The exact sentinel strings replaced by NaN in `clean_amount_series`. -/
def amountSentinels : List String := ["undisclosed", "nan", "none", "None", ""]

/-- Per-cell behaviour of `clean_amount_series`: cast to string, strip
currency symbols and thousands separators, replace sentinel strings with
NaN, then coerce to a number (unparseable → NaN). -/
def clean_amount (c : RawCell) : Option ℚ :=
  let s := stripCurrency (cellToStr c)
  if s ∈ amountSentinels then none else parseNum s

/-! ## Date parsing, modelling `pd.to_datetime(errors='coerce')` -/

/-- A parsed calendar date. -/
structure SimpleDate where
  year : Int
  month : Nat
  day : Nat
deriving DecidableEq, Repr

/-- Models `pd.to_datetime(..., errors='coerce')` for the `dd/mm/yyyy`
layout of the dataset's date column: any cell that does not parse
coerces to `none`, never an error. -/
def parse_date (c : RawCell) : Option SimpleDate :=
  match c with
  | none => none
  | some s =>
    match splitOnChar '/' (trimChars s.data) with
    | [d, m, y] =>
      match natOfDigits? d, natOfDigits? m, natOfDigits? y with
      | some dd, some mm, some yy =>
        if 1 ≤ dd && dd ≤ 31 && 1 ≤ mm && mm ≤ 12 then
          some ⟨(yy : Int), mm, dd⟩
        else none
      | _, _, _ => none
    | _ => none

/-! ## MeitY flag normalization (app.py lines 147–152) -/

/-- The fixed lookup dictionary of the MeitY `.map({...})` call. -/
def meityTable : List (String × String) :=
  [("yes", "Recognized"), ("y", "Recognized"), ("true", "Recognized"), ("1", "Recognized"),
   ("no", "Not Recognized"), ("n", "Not Recognized"), ("false", "Not Recognized"),
   ("0", "Not Recognized")]

/-- `astype(str).str.strip().str.lower()` followed by `.map({...}).fillna("Unknown")`. -/
def normalize_meity (c : RawCell) : String :=
  match meityTable.lookup (lowerStr (trimStr (cellToStr c))) with
  | some v => v
  | none => "Unknown"

/-! ## Generic list helpers (hash-table key order and `idxmax` tie-breaking) -/

/-- Distinct values in order of first appearance, with an accumulator of
already-seen values. -/
def dedupKeepFirstAux {α : Type} [DecidableEq α] (seen : List α) : List α → List α
  | [] => []
  | x :: xs =>
    if x ∈ seen then dedupKeepFirstAux seen xs
    else x :: dedupKeepFirstAux (x :: seen) xs

/-- Distinct values in order of first appearance (pandas key order for
`value_counts`). -/
def dedupKeepFirst {α : Type} [DecidableEq α] (l : List α) : List α :=
  dedupKeepFirstAux [] l

/-- First element attaining the maximum of `f` (pandas `idxmax` /
`value_counts().index[0]`: the earlier element wins ties). -/
def argmaxBy {α β : Type} [LinearOrder β] (f : α → β) : List α → Option α
  | [] => none
  | x :: xs =>
    match argmaxBy f xs with
    | none => some x
    | some y => if f x < f y then some y else some x

/-- Number of occurrences of `t` in `l`. -/
def countToken (l : List String) (t : String) : Nat :=
  (l.filter (fun x => x = t)).length

/-! ## `generate_insights` (app.py lines 69–110) -/

/-- One row of the (already filtered and value-normalized) table, restricted
to the columns `generate_insights` reads. -/
structure Row where
  amount : Option ℚ
  city : Option String
  sector : Option String
  date : Option SimpleDate
  investor : Option String
deriving DecidableEq, Repr

/-- The insight lines `generate_insights` can emit, keeping the numbers
each line interpolates. -/
inductive Insight where
  | total (amt : ℚ)
  | topSector (name : String) (amt : ℚ)
  | topCity (name : String) (sharePct : ℚ)
  | growth (pct : ℚ) (firstYear lastYear : Int)
  | topInvestor (name : String) (deals : Nat)
  | fallback
deriving DecidableEq, Repr

/-- `df[amount_col].sum(skipna=True)`: sum of the non-null amounts
(`0` when there are none). -/
def amountSum (rows : List Row) : ℚ := (rows.filterMap Row.amount).sum

/-- Total-funding branch: `df[amount_col]` raises when the column is
unresolved (caught and skipped); otherwise the line is always appended. -/
def totalBranch (rows : List Row) (hasAmount : Bool) : Option Insight :=
  if hasAmount then some (.total (amountSum rows)) else none

/-- Distinct non-null sector values in sorted order (`groupby` index order). -/
def sectorKeys (rows : List Row) : List String :=
  List.insertionSort (· ≤ ·) (dedupKeepFirst (rows.filterMap Row.sector))

/-- `df.groupby(sector_col)[amount_col].sum()` for a single group key. -/
def sectorSum (rows : List Row) (k : String) : ℚ :=
  ((rows.filter (fun r => r.sector = some k)).filterMap Row.amount).sum

/-- Top-sector branch: `idxmax` raises on an empty grouped series (no
non-null sector), caught and skipped. -/
def topSectorBranch (rows : List Row) (hasSector hasAmount : Bool) : Option Insight :=
  if hasSector && hasAmount then
    (argmaxBy (sectorSum rows) (sectorKeys rows)).map
      (fun k => .topSector k (sectorSum rows k))
  else none

/-- Non-null city values. -/
def cityVals (rows : List Row) : List String := rows.filterMap Row.city

/-- Occurrence count of one city among the non-null city values. -/
def cityCount (rows : List Row) (k : String) : Nat := countToken (cityVals rows) k

/-- Top-city branch: `value_counts(normalize=True, dropna=True)`; skipped when
the series is empty. -/
def topCityBranch (rows : List Row) (hasCity : Bool) : Option Insight :=
  if hasCity then
    (argmaxBy (cityCount rows) (dedupKeepFirst (cityVals rows))).map
      (fun k => .topCity k ((cityCount rows k : ℚ) / ((cityVals rows).length : ℚ) * 100))
  else none

/-- `df.dropna(subset=[date_col, amount_col])`. -/
def rowsTime (rows : List Row) : List Row :=
  rows.filter (fun r => r.date.isSome && r.amount.isSome)

/-- `df_time[date_col].dt.year` for one row. -/
def rowYear (r : Row) : Option Int := r.date.map SimpleDate.year

/-- The distinct years of the rows, ascending (`groupby('year') ... .sort_index()`). -/
def yearsSorted (rows : List Row) : List Int :=
  List.insertionSort (· ≤ ·) (dedupKeepFirst (rows.filterMap rowYear))

/-- Total amount of the rows falling in year `y`. -/
def yearSum (rows : List Row) (y : Int) : ℚ :=
  ((rows.filter (fun r => rowYear r = some y)).filterMap Row.amount).sum

/-- Growth branch body: emitted only when at least two distinct years exist
and the earliest year's total is non-zero. -/
def growthBranch (rows : List Row) : Option Insight :=
  let rt := rowsTime rows
  match yearsSorted rt with
  | y0 :: y1 :: ys =>
    let yl := (y1 :: ys).getLastD y1
    if yearSum rt y0 ≠ 0 then
      some (.growth ((yearSum rt yl - yearSum rt y0) / yearSum rt y0 * 100) y0 yl)
    else none
  | _ => none

/-- Growth branch: `df.dropna(subset=[date_col, amount_col])` raises when
either column is unresolved (caught and skipped). -/
def growthGuard (rows : List Row) (hasDate hasAmount : Bool) : Option Insight :=
  if hasDate && hasAmount then growthBranch rows else none

/-- `df[investor_col].dropna().astype(str).str.split(',').explode().str.strip()`. -/
def investorTokens (rows : List Row) : List String :=
  (rows.filterMap Row.investor).flatMap (fun s => (splitCommaStr s).map trimStr)

/-- Top-investor branch: `value_counts().head(1)`, skipped when empty. -/
def topInvestorBranch (rows : List Row) (hasInvestor : Bool) : Option Insight :=
  if hasInvestor then
    (argmaxBy (countToken (investorTokens rows)) (dedupKeepFirst (investorTokens rows))).map
      (fun k => .topInvestor k (countToken (investorTokens rows) k))
  else none

/-- The candidate insight lines, in the order app.py appends them. -/
def insightCandidates (rows : List Row)
    (hasAmount hasCity hasSector hasDate hasInvestor : Bool) : List Insight :=
  (totalBranch rows hasAmount).toList
    ++ (topSectorBranch rows hasSector hasAmount).toList
    ++ (topCityBranch rows hasCity).toList
    ++ (growthGuard rows hasDate hasAmount).toList
    ++ (topInvestorBranch rows hasInvestor).toList

/-- `generate_insights`: the candidate lines, or the single fallback line
when no candidate was computable. -/
def generate_insights (rows : List Row)
    (hasAmount hasCity hasSector hasDate hasInvestor : Bool) : List Insight :=
  let l := insightCandidates rows hasAmount hasCity hasSector hasDate hasInvestor
  if l.isEmpty then [.fallback] else l

/-! ## Top Investors explode (app.py lines 342–345) -/

/-- A row of `filtered[[investor_col, amount_col]]`. -/
structure InvRow where
  investor : RawCell
  amount : Option ℚ
deriving DecidableEq, Repr

/-- Tokens removed after the explode-and-strip: `['', 'nan', 'None']`. -/
def investorDropTokens : List String := ["", "nan", "None"]

/-- The Top Investors expansion: drop rows with a null investor cell, split
the investor string on commas, explode (carrying the amount), strip each
token, and drop the sentinel tokens. -/
def expandInvestors (rows : List InvRow) : List (String × Option ℚ) :=
  (rows.filter (fun r => r.investor.isSome)).flatMap (fun r =>
    (((splitCommaStr (cellToStr r.investor)).map trimStr).filter
      (fun t => t ∉ investorDropTokens)).map (fun t => (t, r.amount)))

/-! ## Schema resolution (app.py lines 31–35 and 128–138) -/

/-- Normalization applied to the raw column names:
`df.columns.str.strip().str.lower().str.replace(" ", "_")`. -/
def normalize_colname (s : String) : String :=
  String.mk (((trimChars s.data).map lowerChar).map (fun c => if c = ' ' then '_' else c))

/-- `find_column`: the first candidate present among the dataframe's
columns, else `None`. -/
def find_column (cols : List String) : List String → Option String
  | [] => none
  | c :: rest => if c ∈ cols then some c else find_column cols rest

/-! ## Module-level normalization (app.py lines 127–156) -/

/-- A raw row, restricted to the columns the normalization pass touches. -/
structure RawRow where
  amount : RawCell
  date : RawCell
  meity : RawCell
  startup : RawCell
deriving DecidableEq, Repr

/-- A row after the module-level normalization pass. -/
structure NormRow where
  amount : Option ℚ
  date : Option SimpleDate
  meity : Option String
  startup : String
  year : Option Int
deriving DecidableEq, Repr

/-- The per-row effect of app.py lines 141–156: each resolved column is
rewritten in place; an unresolved startup column falls back to the row
index as name; `year` is derived from the parsed date. -/
def normalize_row (hasAmount hasDate hasMeity hasStartup : Bool)
    (idx : Nat) (r : RawRow) : NormRow :=
  { amount := if hasAmount then clean_amount r.amount else none
    date := if hasDate then parse_date r.date else none
    meity := if hasMeity then some (normalize_meity r.meity) else none
    startup := if hasStartup then trimStr (cellToStr r.startup) else toString idx
    year := if hasDate then (parse_date r.date).map SimpleDate.year else none }

/-- The normalization pass from a given starting index. -/
def normalize_table_from (hasAmount hasDate hasMeity hasStartup : Bool)
    (idx : Nat) : List RawRow → List NormRow
  | [] => []
  | r :: rest =>
    normalize_row hasAmount hasDate hasMeity hasStartup idx r ::
      normalize_table_from hasAmount hasDate hasMeity hasStartup (idx + 1) rest

/-- The whole module-level normalization pass: a per-row rewrite, no row
ever added or removed. -/
def normalize_table (hasAmount hasDate hasMeity hasStartup : Bool)
    (rows : List RawRow) : List NormRow :=
  normalize_table_from hasAmount hasDate hasMeity hasStartup 0 rows

/-! ## MeitY KPI (app.py lines 253–258) -/

/-- Occurrences of `v` in the flag column. -/
def countFlag (flags : List String) (v : String) : Nat :=
  (flags.filter (fun x => x = v)).length

/-- `meity_pct`: `(filtered[meity_col] == "Recognized").sum() / len(filtered)
* 100`, and `0.0` on an empty filtered table. -/
def meity_pct (flags : List String) : ℚ :=
  if 0 < flags.length then (countFlag flags "Recognized" : ℚ) / (flags.length : ℚ) * 100
  else 0

/-! ## Shared helper lemmas -/

/-- Every value stored in the MeitY lookup dictionary is one of the two
recognised states. -/
theorem meityTable_lookup_mem {s v : String} (h : meityTable.lookup s = some v) :
    v = "Recognized" ∨ v = "Not Recognized" := by
  simp only [meityTable, List.lookup] at h
  repeat' split at h <;> simp_all

/-- None of the amount sentinel strings parses as a number. -/
theorem parseNum_sentinels : ∀ t ∈ amountSentinels, parseNum t = none := by decide

/-- Membership through the deduplication accumulator. -/
theorem mem_dedupKeepFirstAux {α : Type} [DecidableEq α] {a : α} :
    ∀ (l seen : List α), a ∈ dedupKeepFirstAux seen l ↔ (a ∈ l ∧ a ∉ seen)
  | [], seen => by simp [dedupKeepFirstAux]
  | x :: xs, seen => by
    rw [dedupKeepFirstAux]
    split
    · rename_i hx
      rw [mem_dedupKeepFirstAux xs seen]
      by_cases hax : a = x
      · subst hax
        simp [hx]
      · simp [hax]
    · rename_i hx
      simp only [List.mem_cons, mem_dedupKeepFirstAux xs (x :: seen)]
      by_cases hax : a = x
      · subst hax
        simp [hx]
      · simp [hax]

/-- Deduplication preserves membership. -/
theorem mem_dedupKeepFirst {α : Type} [DecidableEq α] {a : α} {l : List α} :
    a ∈ dedupKeepFirst l ↔ a ∈ l := by
  rw [dedupKeepFirst, mem_dedupKeepFirstAux]
  simp

/-! ## C7: schema resolution -/

/-- **C7.** For every set of raw column names and every ordered alias list,
`find_column` returns the first alias in priority order present in the
column set (`none` when no alias matches), and it depends only on which
names are in the column set (a pure function of the column-name set, no
scoring or fuzzy matching). -/
theorem c7_schema_resolver (cols cands : List String) :
    (find_column cols cands = none ↔ ∀ c ∈ cands, c ∉ cols)
    ∧ (∀ c, find_column cols cands = some c →
        c ∈ cols ∧ ∃ pre suf, cands = pre ++ c :: suf ∧ ∀ x ∈ pre, x ∉ cols)
    ∧ (∀ cols' : List String, (∀ x, x ∈ cols ↔ x ∈ cols') →
        find_column cols cands = find_column cols' cands) := by
  refine ⟨?_, ?_, ?_⟩
  · induction cands with
    | nil => simp [find_column]
    | cons a rest ih =>
      by_cases ha : a ∈ cols
      · simp [find_column, ha]
      · simp [find_column, ha, ih]
  · induction cands with
    | nil => intro c h; simp [find_column] at h
    | cons a rest ih =>
      intro c h
      by_cases ha : a ∈ cols
      · rw [find_column, if_pos ha] at h
        obtain rfl : a = c := by injection h
        exact ⟨ha, [], rest, rfl, by simp⟩
      · rw [find_column, if_neg ha] at h
        obtain ⟨hc, pre, suf, hps, hpre⟩ := ih c h
        refine ⟨hc, a :: pre, suf, by simp [hps], ?_⟩
        intro x hx
        rcases List.mem_cons.mp hx with rfl | hx
        · exact ha
        · exact hpre x hx
  · intro cols' hiff
    induction cands with
    | nil => rfl
    | cons a rest ih =>
      rw [find_column, find_column]
      by_cases ha : a ∈ cols
      · rw [if_pos ha, if_pos ((hiff a).mp ha)]
      · rw [if_neg ha, if_neg (fun h => ha ((hiff a).mpr h)), ih]

/-- **C7 witness.** Concrete run: with columns `{amount, city}` the amount
aliases resolve to `amount` (skipping the unmatched first alias), in a way
invariant under reordering the column set. -/
theorem c7_schema_resolver_witness :
    ("amount" ∈ (["amount", "city"] : List String)
      ∧ ∃ pre suf, (["amount_in_usd", "amount", "investment_amount"] : List String)
          = pre ++ "amount" :: suf ∧ ∀ x ∈ pre, x ∉ (["amount", "city"] : List String))
    ∧ find_column ["amount", "city"] ["amount_in_usd", "amount", "investment_amount"]
        = find_column ["city", "amount"] ["amount_in_usd", "amount", "investment_amount"] := by
  constructor
  · exact (c7_schema_resolver ["amount", "city"]
      ["amount_in_usd", "amount", "investment_amount"]).2.1 "amount" (by decide)
  · exact (c7_schema_resolver ["amount", "city"]
      ["amount_in_usd", "amount", "investment_amount"]).2.2 ["city", "amount"]
      (fun x => by
        simp only [List.mem_cons, List.not_mem_nil, or_false]
        exact or_comm)

/-! ## C8: row-count preservation -/

/-- **C8.** The module-level normalization pass preserves the row count:
for every raw table and every combination of resolved columns, the
normalized table has exactly as many rows as the raw table (the code has
no mode that drops incomplete records). -/
theorem c8_row_count_invariant (ha hd hm hs : Bool) (rows : List RawRow) :
    (normalize_table ha hd hm hs rows).length = rows.length := by
  suffices h : ∀ (idx : Nat) (l : List RawRow),
      (normalize_table_from ha hd hm hs idx l).length = l.length by
    exact h 0 rows
  intro idx l
  induction l generalizing idx with
  | nil => rfl
  | cons r rest ih => simp [normalize_table_from, ih]

/-! ## C10: MeitY KPI -/

/-- **C10.** On a filtered table whose flag column holds the three
normalized states, `meity_pct` is the count of `Recognized` rows divided
by the total row count (as a percentage); `Unknown` and `Not Recognized`
rows each count in the denominator as their own bucket (the three bucket
counts sum to the denominator); and the metric is `0.0` on an empty
table rather than a division error. -/
theorem c10_meity_pct_kpi (flags : List String)
    (h : ∀ f ∈ flags, f = "Recognized" ∨ f = "Not Recognized" ∨ f = "Unknown") :
    (flags = [] → meity_pct flags = 0)
    ∧ (flags ≠ [] →
        meity_pct flags = (countFlag flags "Recognized" : ℚ) / (flags.length : ℚ) * 100)
    ∧ countFlag flags "Recognized" + countFlag flags "Not Recognized"
        + countFlag flags "Unknown" = flags.length := by
  refine ⟨?_, ?_, ?_⟩
  · rintro rfl; simp [meity_pct]
  · intro hne
    have : 0 < flags.length := List.length_pos.mpr hne
    simp [meity_pct, this]
  · induction flags with
    | nil => rfl
    | cons f rest ih =>
      have hf := h f (List.mem_cons_self f rest)
      have hrest := ih (fun x hx => h x (List.mem_cons_of_mem f hx))
      simp only [countFlag, List.filter_cons, List.length_cons] at *
      rcases hf with rfl | rfl | rfl <;> simp_all <;> omega

/-- **C10 witness.** Concrete run on a four-row flag column with one row in
each bucket plus an extra `Unknown`. -/
theorem c10_meity_pct_kpi_witness :
    ((["Recognized", "Unknown", "Not Recognized", "Unknown"] : List String) = [] →
      meity_pct ["Recognized", "Unknown", "Not Recognized", "Unknown"] = 0)
    ∧ ((["Recognized", "Unknown", "Not Recognized", "Unknown"] : List String) ≠ [] →
        meity_pct ["Recognized", "Unknown", "Not Recognized", "Unknown"]
          = (countFlag ["Recognized", "Unknown", "Not Recognized", "Unknown"] "Recognized" : ℚ)
            / ((["Recognized", "Unknown", "Not Recognized", "Unknown"] : List String).length : ℚ)
            * 100)
    ∧ countFlag ["Recognized", "Unknown", "Not Recognized", "Unknown"] "Recognized"
        + countFlag ["Recognized", "Unknown", "Not Recognized", "Unknown"] "Not Recognized"
        + countFlag ["Recognized", "Unknown", "Not Recognized", "Unknown"] "Unknown"
        = (["Recognized", "Unknown", "Not Recognized", "Unknown"] : List String).length :=
  c10_meity_pct_kpi ["Recognized", "Unknown", "Not Recognized", "Unknown"] (by decide)

/-! ## C1: Value Normalizer totality -/

/-- **C1.** The value normalizer is total: every flag cell normalizes to one
of the three states (anything outside the lookup table, including null,
becomes `Unknown` — see the first and last conjuncts together with
`c3_flag_normalization`); every amount cell resolves to a number or null,
with sentinel tokens and unparseable strings coerced to null; a null
amount cell stays null; and every date cell resolves to a date or null. -/
theorem c1_value_normalizer_total :
    (∀ c : RawCell, normalize_meity c = "Recognized" ∨ normalize_meity c = "Not Recognized"
      ∨ normalize_meity c = "Unknown")
    ∧ (∀ s : String, stripCurrency s ∈ amountSentinels → clean_amount (some s) = none)
    ∧ (∀ s : String, parseNum (stripCurrency s) = none → clean_amount (some s) = none)
    ∧ clean_amount none = none
    ∧ (∀ c : RawCell, clean_amount c = none ∨ ∃ q, clean_amount c = some q)
    ∧ (∀ c : RawCell, parse_date c = none ∨ ∃ d, parse_date c = some d) := by
  refine ⟨?_, ?_, ?_, ?_, ?_, ?_⟩
  · intro c
    unfold normalize_meity
    split
    · rename_i v hv
      rcases meityTable_lookup_mem hv with h | h <;> simp [h]
    · simp
  · intro s hs
    show (if stripCurrency s ∈ amountSentinels then none
          else parseNum (stripCurrency s)) = none
    rw [if_pos hs]
  · intro s hs
    show (if stripCurrency s ∈ amountSentinels then none
          else parseNum (stripCurrency s)) = none
    split
    · rfl
    · exact hs
  · decide
  · intro c
    cases h : clean_amount c with
    | none => exact Or.inl rfl
    | some q => exact Or.inr ⟨q, rfl⟩
  · intro c
    cases h : parse_date c with
    | none => exact Or.inl rfl
    | some d => exact Or.inr ⟨d, rfl⟩

/-- **C1 witness.** Concrete runs: a sentinel token (after currency
stripping) and an unparseable string both coerce to null. -/
theorem c1_value_normalizer_total_witness :
    clean_amount (some "$undisclosed") = none ∧ clean_amount (some "12abc") = none :=
  ⟨c1_value_normalizer_total.2.1 "$undisclosed" (by decide),
   c1_value_normalizer_total.2.2.1 "12abc" (by decide)⟩

/-! ## C3: flag normalization -/

/-- **C3.** Flag normalization trims and lower-cases the raw value and maps
it through the fixed lookup table: affirmative tokens map to
`Recognized` (the positive state), negative tokens to `Not Recognized`,
and anything else — including null — to `Unknown`; on the raw sequence
`["Yes", " no ", "TRUE", "bogus", None]` it yields
`[Recognized, Not Recognized, Recognized, Unknown, Unknown]`. -/
theorem c3_flag_normalization :
    (∀ s : String, lowerStr (trimStr s) ∈ (["yes", "y", "true", "1"] : List String) →
      normalize_meity (some s) = "Recognized")
    ∧ (∀ s : String, lowerStr (trimStr s) ∈ (["no", "n", "false", "0"] : List String) →
      normalize_meity (some s) = "Not Recognized")
    ∧ (∀ s : String,
        lowerStr (trimStr s) ∉ (["yes", "y", "true", "1", "no", "n", "false", "0"] : List String) →
        normalize_meity (some s) = "Unknown")
    ∧ normalize_meity none = "Unknown"
    ∧ [some "Yes", some " no ", some "TRUE", some "bogus", none].map normalize_meity
        = ["Recognized", "Not Recognized", "Recognized", "Unknown", "Unknown"] := by
  refine ⟨?_, ?_, ?_, by decide, by decide⟩
  · intro s hs
    simp only [List.mem_cons, List.not_mem_nil, or_false] at hs
    rcases hs with h | h | h | h <;>
      simp [normalize_meity, cellToStr, meityTable, List.lookup, h]
  · intro s hs
    simp only [List.mem_cons, List.not_mem_nil, or_false] at hs
    rcases hs with h | h | h | h <;>
      simp [normalize_meity, cellToStr, meityTable, List.lookup, h]
  · intro s hs
    simp only [List.mem_cons, List.not_mem_nil, or_false, not_or] at hs
    obtain ⟨h1, h2, h3, h4, h5, h6, h7, h8⟩ := hs
    simp [normalize_meity, cellToStr, meityTable, List.lookup,
      beq_eq_false_iff_ne.mpr h1, beq_eq_false_iff_ne.mpr h2, beq_eq_false_iff_ne.mpr h3,
      beq_eq_false_iff_ne.mpr h4, beq_eq_false_iff_ne.mpr h5, beq_eq_false_iff_ne.mpr h6,
      beq_eq_false_iff_ne.mpr h7, beq_eq_false_iff_ne.mpr h8]

/-- **C3 witness.** Concrete runs through each of the three branches. -/
theorem c3_flag_normalization_witness :
    normalize_meity (some "Yes") = "Recognized"
    ∧ normalize_meity (some " no ") = "Not Recognized"
    ∧ normalize_meity (some "bogus") = "Unknown" :=
  ⟨c3_flag_normalization.1 "Yes" (by decide),
   c3_flag_normalization.2.1 " no " (by decide),
   c3_flag_normalization.2.2.1 "bogus" (by decide)⟩

/-! ## C2: negative amounts are NOT floored to null (corrected) -/

/-- **C2 counterexample.** The raw amount cell `"-5"` cleans to `-5`, a
non-null negative value: `clean_amount_series` does not turn negative
parsed values into null, refuting the claim that every non-null
normalized amount is ≥ 0. -/
theorem c2_counterexample :
    clean_amount (some "-5") = some (-5) ∧ ¬ (0 : ℚ) ≤ (-5 : ℚ) := by
  refine ⟨by decide, by norm_num⟩

/-- **C2 amended.** Amount cleaning passes every successfully parsed value
through unchanged, negative values included: whenever the
currency-stripped cell parses as a number `q`, the cleaned amount is `q`
(only sentinel tokens and unparseable strings become null). -/
theorem c2_amended_negatives_pass_through (s : String) (q : ℚ)
    (h : parseNum (stripCurrency s) = some q) :
    clean_amount (some s) = some q := by
  have hns : stripCurrency s ∉ amountSentinels := by
    intro hmem
    rw [parseNum_sentinels _ hmem] at h
    cases h
  show (if stripCurrency s ∈ amountSentinels then none
        else parseNum (stripCurrency s)) = some q
  rw [if_neg hns, h]

/-- **C2 amended witness.** Concrete run: `"-7"` cleans to `-7`. -/
theorem c2_amended_negatives_pass_through_witness :
    clean_amount (some "-7") = some (-7) :=
  c2_amended_negatives_pass_through "-7" (-7) (by decide)

/-! ## C5: multi-value expansion -/

/-- **C5.** The Top Investors expansion splits the investor field on commas,
trims each token, and drops empty and sentinel tokens: `"A, B ,C"` yields
exactly the three records `A`, `B`, `C`; `"A,,B"` yields exactly `A` and
`B`; a null or empty field yields no record; every expanded record
carries the parent record's amount unchanged; and the expansion of a
table is the concatenation of the per-record expansions. -/
theorem c5_multi_value_expander :
    (∀ amt : Option ℚ, expandInvestors [⟨some "A, B ,C", amt⟩]
      = [("A", amt), ("B", amt), ("C", amt)])
    ∧ (∀ amt : Option ℚ, expandInvestors [⟨some "A,,B", amt⟩] = [("A", amt), ("B", amt)])
    ∧ (∀ amt : Option ℚ, expandInvestors [⟨none, amt⟩] = [])
    ∧ (∀ amt : Option ℚ, expandInvestors [⟨some "", amt⟩] = [])
    ∧ (∀ r : InvRow, ∀ p ∈ expandInvestors [r], p.2 = r.amount)
    ∧ (∀ (r : InvRow) (rest : List InvRow),
        expandInvestors (r :: rest) = expandInvestors [r] ++ expandInvestors rest) := by
  refine ⟨fun amt => rfl, fun amt => rfl, fun amt => rfl, fun amt => rfl, ?_, ?_⟩
  · rintro ⟨inv, amt⟩ p hp
    cases inv with
    | none => simp [expandInvestors] at hp
    | some s =>
      simp only [expandInvestors, List.mem_flatMap, List.mem_map, List.mem_filter] at hp
      obtain ⟨r', ⟨hr', -⟩, t, -, rfl⟩ := hp
      rw [List.mem_singleton] at hr'
      subst hr'
      rfl
  · rintro ⟨inv, amt⟩ rest
    cases inv <;> simp [expandInvestors]

/-- **C5 witness.** Concrete runs: the three-token example, and the carried
amount of one expanded record. -/
theorem c5_multi_value_expander_witness :
    expandInvestors [⟨some "A, B ,C", some 7⟩]
      = [("A", some 7), ("B", some 7), ("C", some 7)]
    ∧ (("X", (some 2 : Option ℚ)) : String × Option ℚ).2
      = (⟨some "X,Y", some 2⟩ : InvRow).amount :=
  ⟨c5_multi_value_expander.1 (some 7),
   c5_multi_value_expander.2.2.2.2.1 ⟨some "X,Y", some 2⟩ ("X", some 2) (by decide)⟩

/-! ## C6: insight list never empty -/

/-- `generate_insights`, unfolded. -/
theorem generate_insights_eq (rows : List Row) (ha hc hs hd hi : Bool) :
    generate_insights rows ha hc hs hd hi
      = if (insightCandidates rows ha hc hs hd hi).isEmpty then [.fallback]
        else insightCandidates rows ha hc hs hd hi := rfl

/-- **C6.** For every input table (including an empty one) and every
combination of resolved columns, `generate_insights` returns at least one
entry: when no candidate insight is computable it emits exactly the one
fallback line, never an empty list. -/
theorem c6_insights_nonempty (rows : List Row) (ha hc hs hd hi : Bool) :
    1 ≤ (generate_insights rows ha hc hs hd hi).length := by
  rw [generate_insights_eq]
  by_cases h : (insightCandidates rows ha hc hs hd hi).isEmpty
  · rw [if_pos h]; simp
  · rw [if_neg h]
    refine List.length_pos.mpr ?_
    simpa [List.isEmpty_iff] using h

/-! ## Membership in the emitted insight list -/

/-- Membership in the emitted list: either the fallback line of an empty
candidate list, or one of the candidate lines. -/
theorem mem_generate_insights_iff {rows : List Row} {ha hc hs hd hi : Bool} {i : Insight} :
    i ∈ generate_insights rows ha hc hs hd hi ↔
      (insightCandidates rows ha hc hs hd hi = [] ∧ i = .fallback)
      ∨ i ∈ insightCandidates rows ha hc hs hd hi := by
  rw [generate_insights_eq]
  by_cases h : (insightCandidates rows ha hc hs hd hi).isEmpty
  · have he : insightCandidates rows ha hc hs hd hi = [] := by
      simpa [List.isEmpty_iff] using h
    rw [if_pos h]
    simp [he]
  · have he : insightCandidates rows ha hc hs hd hi ≠ [] := by
      simpa [List.isEmpty_iff] using h
    rw [if_neg h]
    simp [he]

/-- Membership in the candidate list is membership in one of the branches. -/
theorem mem_insightCandidates_iff {rows : List Row} {ha hc hs hd hi : Bool} {i : Insight} :
    i ∈ insightCandidates rows ha hc hs hd hi ↔
      totalBranch rows ha = some i ∨ topSectorBranch rows hs ha = some i
      ∨ topCityBranch rows hc = some i ∨ growthGuard rows hd ha = some i
      ∨ topInvestorBranch rows hi = some i := by
  simp [insightCandidates, List.mem_append, Option.mem_toList, Option.mem_def]

/-- Shape of the total branch. -/
theorem totalBranch_shape {rows : List Row} {b : Bool} {i : Insight}
    (h : totalBranch rows b = some i) : b = true ∧ i = .total (amountSum rows) := by
  unfold totalBranch at h
  split at h
  · rename_i hb
    refine ⟨hb, ?_⟩
    injection h with h'
    exact h'.symm
  · cases h

/-- Shape of the top-sector branch. -/
theorem topSectorBranch_shape {rows : List Row} {hs ha : Bool} {i : Insight}
    (h : topSectorBranch rows hs ha = some i) : ∃ k a, i = .topSector k a := by
  unfold topSectorBranch at h
  split at h
  · obtain ⟨k, -, rfl⟩ := Option.map_eq_some'.mp h
    exact ⟨k, sectorSum rows k, rfl⟩
  · cases h

/-- Shape of the top-city branch. -/
theorem topCityBranch_shape {rows : List Row} {hc : Bool} {i : Insight}
    (h : topCityBranch rows hc = some i) : ∃ k p, i = .topCity k p := by
  unfold topCityBranch at h
  split at h
  · obtain ⟨k, -, rfl⟩ := Option.map_eq_some'.mp h
    exact ⟨k, _, rfl⟩
  · cases h

/-- Shape of the guarded growth branch. -/
theorem growthGuard_shape {rows : List Row} {hd ha : Bool} {i : Insight}
    (h : growthGuard rows hd ha = some i) : ∃ p y0 yl, i = .growth p y0 yl := by
  unfold growthGuard at h
  split at h
  · simp only [growthBranch] at h
    split at h
    · split at h
      · injection h with h'
        exact ⟨_, _, _, h'.symm⟩
      · cases h
    · cases h
  · cases h

/-- Shape of the top-investor branch. -/
theorem topInvestorBranch_shape {rows : List Row} {hi : Bool} {i : Insight}
    (h : topInvestorBranch rows hi = some i) : ∃ k d, i = .topInvestor k d := by
  unfold topInvestorBranch at h
  split at h
  · obtain ⟨k, -, rfl⟩ := Option.map_eq_some'.mp h
    exact ⟨k, _, rfl⟩
  · cases h

/-! ## C9: total-amount insight (corrected) -/

/-- **C9 counterexample.** On a one-row table whose amount cell is null (and
the amount column resolved), the total insight is still emitted and
reports a zero total, refuting "when no non-null amount exists, it is
omitted". -/
theorem c9_counterexample :
    Insight.total 0 ∈
      generate_insights [⟨none, none, none, none, none⟩] true false false false false := by
  decide

/-- **C9 amended.** The total-amount insight reports the sum of the non-null
amounts and is included exactly when the amount column is resolved: with
the column resolved it is present even when no non-null amount exists
(then reporting a zero total, since the skip-NA sum of an all-null column
is 0); it is absent only when the amount column is unresolved. -/
theorem c9_total_insight_amended (rows : List Row) (hc hs hd hi : Bool) :
    (∀ t : ℚ, Insight.total t ∈ generate_insights rows true hc hs hd hi ↔ t = amountSum rows)
    ∧ (∀ t : ℚ, Insight.total t ∉ generate_insights rows false hc hs hd hi) := by
  constructor
  · intro t
    rw [mem_generate_insights_iff, mem_insightCandidates_iff]
    constructor
    · rintro (⟨-, hfb⟩ | h | h | h | h | h)
      · exact Insight.noConfusion hfb
      · have h' := (totalBranch_shape h).2
        injection h'
      · obtain ⟨k, a, hk⟩ := topSectorBranch_shape h
        exact Insight.noConfusion hk
      · obtain ⟨k, q, hk⟩ := topCityBranch_shape h
        exact Insight.noConfusion hk
      · obtain ⟨q, a, b, hk⟩ := growthGuard_shape h
        exact Insight.noConfusion hk
      · obtain ⟨k, d, hk⟩ := topInvestorBranch_shape h
        exact Insight.noConfusion hk
    · rintro rfl
      exact Or.inr (Or.inl (by simp [totalBranch]))
  · intro t h
    rw [mem_generate_insights_iff, mem_insightCandidates_iff] at h
    rcases h with ⟨-, hfb⟩ | h | h | h | h | h
    · exact Insight.noConfusion hfb
    · simp [totalBranch] at h
    · obtain ⟨k, a, hk⟩ := topSectorBranch_shape h
      exact Insight.noConfusion hk
    · obtain ⟨k, q, hk⟩ := topCityBranch_shape h
      exact Insight.noConfusion hk
    · obtain ⟨q, a, b, hk⟩ := growthGuard_shape h
      exact Insight.noConfusion hk
    · obtain ⟨k, d, hk⟩ := topInvestorBranch_shape h
      exact Insight.noConfusion hk

/-- **C9 amended witness.** Concrete run: a one-row table with amount `3`
emits the total insight with the skip-NA amount sum. -/
theorem c9_total_insight_amended_witness :
    Insight.total (amountSum [⟨some 3, none, none, none, none⟩]) ∈
      generate_insights [⟨some 3, none, none, none, none⟩] true false false false false :=
  ((c9_total_insight_amended [⟨some 3, none, none, none, none⟩] false false false false).1
    (amountSum [⟨some 3, none, none, none, none⟩])).mpr rfl

/-! ## C4: growth insight -/

/-- Characterization of the growth branch's output. -/
theorem growthBranch_eq_growth_iff {rows : List Row} {p : ℚ} {y0 yl : Int} :
    growthBranch rows = some (.growth p y0 yl) ↔
      ∃ y1 ys, yearsSorted (rowsTime rows) = y0 :: y1 :: ys
        ∧ yl = (y1 :: ys).getLastD y1
        ∧ yearSum (rowsTime rows) y0 ≠ 0
        ∧ p = (yearSum (rowsTime rows) yl - yearSum (rowsTime rows) y0)
            / yearSum (rowsTime rows) y0 * 100 := by
  constructor
  · intro h
    simp only [growthBranch] at h
    split at h
    · rename_i a b l heq
      split at h
      · rename_i hne
        rw [Option.some.injEq, Insight.growth.injEq] at h
        obtain ⟨hp, hy0, hyl⟩ := h
        subst hy0
        subst hyl
        exact ⟨b, l, heq, rfl, hne, hp.symm⟩
      · cases h
    · cases h
  · rintro ⟨y1, ys, heq, hyl, hne, hp⟩
    subst hp
    subst hyl
    simp only [growthBranch]
    rw [heq]
    simp [hne]

/-- A growth line is in the output exactly when the growth branch fires
(the other branches emit other constructors, and the fallback is only the
fallback line). -/
theorem growth_mem_iff {rows : List Row} {hc hs hi : Bool} {p : ℚ} {y0 yl : Int} :
    Insight.growth p y0 yl ∈ generate_insights rows true hc hs true hi ↔
      growthBranch rows = some (.growth p y0 yl) := by
  rw [mem_generate_insights_iff, mem_insightCandidates_iff]
  constructor
  · rintro (⟨-, hfb⟩ | h | h | h | h | h)
    · exact Insight.noConfusion hfb
    · exact Insight.noConfusion (totalBranch_shape h).2
    · obtain ⟨k, a, hk⟩ := topSectorBranch_shape h
      exact Insight.noConfusion hk
    · obtain ⟨k, q, hk⟩ := topCityBranch_shape h
      exact Insight.noConfusion hk
    · simpa [growthGuard] using h
    · obtain ⟨k, d, hk⟩ := topInvestorBranch_shape h
      exact Insight.noConfusion hk
  · intro h
    right; right; right; right; left
    simpa [growthGuard] using h

/-- Membership in `yearsSorted`. -/
theorem mem_yearsSorted_iff {l : List Row} {y : Int} :
    y ∈ yearsSorted l ↔ ∃ r ∈ l, rowYear r = some y := by
  unfold yearsSorted
  rw [(List.perm_insertionSort _ _).mem_iff, mem_dedupKeepFirst, List.mem_filterMap]

/-- **C4.** The growth insight is included (for a table with resolved date
and amount columns) iff the rows with non-null date and amount span at
least two distinct years and the earliest such year's total amount is
non-zero — in particular it is omitted, not NaN or infinite, when that
total is exactly 0; when present it reports
`(latest_year_total − earliest_year_total) / earliest_year_total × 100`
over the yearly sums; the year list is sorted ascending and consists
exactly of the years of rows with non-null date and amount. -/
theorem c4_growth_insight (rows : List Row) (hc hs hi : Bool) :
    ((∃ p y0 yl, Insight.growth p y0 yl ∈ generate_insights rows true hc hs true hi) ↔
      2 ≤ (yearsSorted (rowsTime rows)).length
        ∧ yearSum (rowsTime rows) ((yearsSorted (rowsTime rows)).headD 0) ≠ 0)
    ∧ (∀ (p : ℚ) (y0 yl : Int),
        Insight.growth p y0 yl ∈ generate_insights rows true hc hs true hi →
        y0 = (yearsSorted (rowsTime rows)).headD 0
        ∧ yl = (yearsSorted (rowsTime rows)).getLastD 0
        ∧ p = (yearSum (rowsTime rows) yl - yearSum (rowsTime rows) y0)
            / yearSum (rowsTime rows) y0 * 100)
    ∧ List.Sorted (· ≤ ·) (yearsSorted (rowsTime rows))
    ∧ (∀ y : Int, y ∈ yearsSorted (rowsTime rows) ↔
        ∃ r ∈ rows, r.amount.isSome = true ∧ rowYear r = some y) := by
  refine ⟨⟨?_, ?_⟩, ?_, ?_, ?_⟩
  · rintro ⟨p, y0, yl, hmem⟩
    obtain ⟨y1, ys, heq, hyl, hne, hp⟩ := growthBranch_eq_growth_iff.mp (growth_mem_iff.mp hmem)
    rw [heq]
    exact ⟨by simp, by simpa using hne⟩
  · rintro ⟨hlen, hne⟩
    rcases hys : yearsSorted (rowsTime rows) with _ | ⟨a, _ | ⟨b, l⟩⟩
    · rw [hys] at hlen; simp at hlen
    · rw [hys] at hlen; simp at hlen
    · rw [hys] at hne
      simp only [List.headD_cons] at hne
      refine ⟨(yearSum (rowsTime rows) ((b :: l).getLastD b) - yearSum (rowsTime rows) a)
          / yearSum (rowsTime rows) a * 100, a, (b :: l).getLastD b, ?_⟩
      exact growth_mem_iff.mpr (growthBranch_eq_growth_iff.mpr ⟨b, l, hys, rfl, hne, rfl⟩)
  · intro p y0 yl hmem
    obtain ⟨y1, ys, heq, hyl, hne, hp⟩ := growthBranch_eq_growth_iff.mp (growth_mem_iff.mp hmem)
    rw [heq]
    refine ⟨by simp, ?_, hp⟩
    rw [hyl]
    rfl
  · exact List.sorted_insertionSort _ _
  · intro y
    rw [mem_yearsSorted_iff]
    constructor
    · rintro ⟨r, hr, hy⟩
      simp only [rowsTime, List.mem_filter, Bool.and_eq_true] at hr
      exact ⟨r, hr.1, hr.2.2, hy⟩
    · rintro ⟨r, hr, hamt, hy⟩
      refine ⟨r, ?_, hy⟩
      simp only [rowsTime, List.mem_filter, Bool.and_eq_true]
      refine ⟨hr, ?_, hamt⟩
      rcases hd : r.date with _ | d
      · simp [rowYear, hd] at hy
      · simp [hd]

/-- **C4 witness.** Concrete run: rows dated 2020 (amount 1000) and 2021
(amount 2500) make the growth insight present. -/
theorem c4_growth_insight_witness :
    ∃ p y0 yl, Insight.growth p y0 yl ∈ generate_insights
      [⟨some 1000, none, none, some ⟨2020, 1, 1⟩, none⟩,
       ⟨some 2500, none, none, some ⟨2021, 1, 1⟩, none⟩] true false false true false :=
  (c4_growth_insight
    [⟨some 1000, none, none, some ⟨2020, 1, 1⟩, none⟩,
     ⟨some 2500, none, none, some ⟨2021, 1, 1⟩, none⟩] false false false).1.mpr
    ⟨by decide, by
      have h : (yearsSorted (rowsTime
          [⟨some 1000, none, none, some ⟨2020, 1, 1⟩, none⟩,
           ⟨some 2500, none, none, some ⟨2021, 1, 1⟩, none⟩])).headD 0 = 2020 := by decide
      rw [h]
      simp [yearSum, rowsTime, rowYear]⟩

end StartupDashboard
